import Mathlib

/-!
Verification development for the chunk-ownership abstraction of
`iceoryx_posh/include/iceoryx_posh/popo/sample.hpp`: the move-only `Sample`
handle over a loaned shared-memory chunk, in both its writable (non-const
payload) and read-only (const payload) variants.

The header declares the interface; the out-of-line definitions
(`sample.inl`) and the underlying `cxx::unique_ptr` chunk handle live
outside the available sources, so those behaviours are modelled from the
specification's words in the doc comments below.

Disposal effects are made observable by letting each operation emit a list
of events: a `publishEv` when the chunk is handed to the producer's
delivery capability, a `poolReleaseEv` when it is returned to the free
pool.
-/

namespace IceoryxSample

/-- A chunk of shared memory, identified by the address of its header and
the address of its payload area (`mepoo::ChunkHeader` followed by the
typed payload). -/
structure Chunk where
  headerAddr : Nat
  payloadAddr : Nat
deriving DecidableEq, Repr

/-- Observable disposal events of the model: the producer's publish
capability or the pool's release capability being invoked with a chunk. -/
inductive Event where
  | publishEv (c : Chunk)
  | poolReleaseEv (c : Chunk)
deriving DecidableEq, Repr

def Event.isPublish : Event → Bool
  | .publishEv _ => true
  | .poolReleaseEv _ => false

def Event.isPoolRelease : Event → Bool
  | .publishEv _ => false
  | .poolReleaseEv _ => true

/-- The chunk an event refers to. -/
def Event.chunkOf : Event → Chunk
  | .publishEv c => c
  | .poolReleaseEv c => c

/-- The deleter / release action carried by a chunk handle: either the
no-op placeholder action (`[](T* const) {}`, sample.hpp line 45 and
lines 61-62) or the real action returning the chunk to the pool. -/
inductive RelAction where
  | noop
  | toPool
deriving DecidableEq, Repr

/-- Modelled from the spec: the Chunk Handle (`cxx::unique_ptr`, whose
implementation is not among the available sources; only its use in
sample.hpp is). Per the spec it "wraps a chunk reference and a release
action, invoked automatically if the handle is destroyed still holding a
chunk", and "a handle in the empty state holds no chunk and its release
action is a no-op". -/
structure ChunkHandle where
  chunk : Option Chunk
  action : RelAction
deriving DecidableEq, Repr

/-- The empty state of a handle: no chunk, no-op release action; the
representation of "moved-from" or "disposed". -/
def emptyHandle : ChunkHandle := ⟨none, RelAction.noop⟩

/-- The placeholder member initializer of `SamplePrivateData::samplePtr`
(sample.hpp line 45): a handle built from the no-op deleter alone,
holding no chunk. -/
def placeholderHandle : ChunkHandle := emptyHandle

/-- A handle loaned from the pool: holds a chunk, and its release action
returns that chunk to the pool. -/
def loanedHandle (c : Chunk) : ChunkHandle := ⟨some c, RelAction.toPool⟩

/-- Modelled from the spec: destroying a chunk handle runs its release
action exactly when it still holds a chunk; an empty handle's destruction
does nothing. -/
def ChunkHandle.destroy (h : ChunkHandle) : List Event :=
  match h.chunk, h.action with
  | none, _ => []
  | some _, RelAction.noop => []
  | some c, RelAction.toPool => [Event.poolReleaseEv c]

/-- `internal::SamplePrivateData<T>` for non-const `T` (sample.hpp
lines 34-47): a chunk handle plus the producer back-reference
(`std::reference_wrapper<PublisherInterface<T>>`), modelled as a producer
identifier. -/
structure SamplePrivateData where
  samplePtr : ChunkHandle
  publisherRef : Nat
deriving DecidableEq, Repr

/-- `internal::SamplePrivateData<const T>` (sample.hpp lines 50-63): the
read-only specialization holds only the chunk handle, no producer
reference. -/
structure SamplePrivateDataConst where
  samplePtr : ChunkHandle
deriving DecidableEq, Repr

/-- `Sample<T>` for non-const `T`: the writable, producer-side variant. -/
structure Sample where
  m_members : SamplePrivateData
deriving DecidableEq, Repr

/-- `Sample<const T>`: the read-only, consumer-side variant. -/
structure SampleConst where
  m_members : SamplePrivateDataConst
deriving DecidableEq, Repr

/-- Constructor `Sample(cxx::unique_ptr<T>&&, PublisherInterface<T>&)`
(sample.hpp line 79): wraps a loaned handle and the producer reference. -/
def mkSample (c : Chunk) (pub : Nat) : Sample :=
  ⟨⟨loanedHandle c, pub⟩⟩

/-- Constructor `Sample(std::nullptr_t)` (sample.hpp line 87). Modelled
from the spec: "result: INVALID instance". The producer reference is left
at an arbitrary value `pub`; it is never used while INVALID. -/
def mkNullSample (pub : Nat) : Sample :=
  ⟨⟨emptyHandle, pub⟩⟩

/-- Constructor `Sample(cxx::unique_ptr<const T>&&)` (sample.hpp line 85):
the subscriber-side constructor, no producer reference. -/
def mkSampleConst (c : Chunk) : SampleConst :=
  ⟨⟨loanedHandle c⟩⟩

/-- `Sample<const T>(std::nullptr_t)`: INVALID read-only instance. -/
def mkNullSampleConst : SampleConst :=
  ⟨⟨emptyHandle⟩⟩

/-- `operator bool()` (sample.hpp line 129). Modelled from the spec:
"true if the sample is valid, i.e. refers to allocated memory". -/
def Sample.operatorBool (s : Sample) : Bool :=
  s.m_members.samplePtr.chunk.isSome

/-- `operator bool()` of the read-only variant. -/
def SampleConst.operatorBool (s : SampleConst) : Bool :=
  s.m_members.samplePtr.chunk.isSome

/-- The VALID state of the spec's state machine: the instance currently
owns a chunk handle (the handle is non-empty). -/
def Sample.OwnsChunk (s : Sample) : Prop :=
  ∃ c, s.m_members.samplePtr.chunk = some c

/-- VALID state for the read-only variant. -/
def SampleConst.OwnsChunk (s : SampleConst) : Prop :=
  ∃ c, s.m_members.samplePtr.chunk = some c

instance (s : Sample) : Decidable s.OwnsChunk :=
  decidable_of_iff (s.m_members.samplePtr.chunk.isSome = true)
    (by simp [Sample.OwnsChunk, Option.isSome_iff_exists])

instance (s : SampleConst) : Decidable s.OwnsChunk :=
  decidable_of_iff (s.m_members.samplePtr.chunk.isSome = true)
    (by simp [SampleConst.OwnsChunk, Option.isSome_iff_exists])

/-- Modelled from the spec: access operations require VALID; "violating
the contract terminates the operation abnormally", modelled as `none`.
`T* get()` (sample.hpp line 137) returns a pointer into the payload. -/
def Sample.get (s : Sample) : Option Nat :=
  match s.m_members.samplePtr.chunk with
  | none => none
  | some c => some c.payloadAddr

/-- `T* operator->()` (sample.hpp line 103): transparent access,
same payload pointer as `get`. -/
def Sample.operatorArrow (s : Sample) : Option Nat :=
  s.get

/-- `T& operator*()` (sample.hpp line 117): the referenced payload. -/
def Sample.operatorStar (s : Sample) : Option Nat :=
  s.get

/-- `mepoo::ChunkHeader* getHeader()` (sample.hpp line 151): the header
preceding the payload. -/
def Sample.getHeader (s : Sample) : Option Nat :=
  match s.m_members.samplePtr.chunk with
  | none => none
  | some c => some c.headerAddr

/-- `const T* get() const` of the read-only variant (sample.hpp
line 143). -/
def SampleConst.get (s : SampleConst) : Option Nat :=
  match s.m_members.samplePtr.chunk with
  | none => none
  | some c => some c.payloadAddr

/-- `const T* operator->() const` (sample.hpp line 109). -/
def SampleConst.operatorArrow (s : SampleConst) : Option Nat :=
  s.get

/-- `const T& operator*() const` (sample.hpp line 123). -/
def SampleConst.operatorStar (s : SampleConst) : Option Nat :=
  s.get

/-- `const mepoo::ChunkHeader* getHeader() const` (sample.hpp
line 157). -/
def SampleConst.getHeader (s : SampleConst) : Option Nat :=
  match s.m_members.samplePtr.chunk with
  | none => none
  | some c => some c.headerAddr

/-- Modelled from the spec: `publish()` (sample.hpp line 165; definition
not among the available sources). Precondition VALID (violation aborts:
`none`); hands the owned chunk to the producer's publish capability and
becomes INVALID. -/
def Sample.publish (s : Sample) : Option (Sample × List Event) :=
  match s.m_members.samplePtr.chunk with
  | none => none
  | some c => some (⟨⟨emptyHandle, s.m_members.publisherRef⟩⟩, [Event.publishEv c])

/-- Modelled from the spec: `release()` (sample.hpp line 173; definition
not among the available sources). Precondition VALID (violation aborts:
`none`); returns the owned chunk directly to the pool and becomes
INVALID. -/
def Sample.release (s : Sample) : Option (Sample × List Event) :=
  match s.m_members.samplePtr.chunk with
  | none => none
  | some c => some (⟨⟨emptyHandle, s.m_members.publisherRef⟩⟩, [Event.poolReleaseEv c])

/-- Modelled from the spec: `~Sample()` (sample.hpp line 88; definition
not among the available sources). "If still VALID, disposal is equivalent
to an implicit release(): the chunk is returned to the pool, never
published" — i.e. the handle's own release action runs. -/
def Sample.destroy (s : Sample) : List Event :=
  s.m_members.samplePtr.destroy

/-- Destructor of the read-only variant: always returns the handle to the
pool on destruction (when still holding a chunk). -/
def SampleConst.destroy (s : SampleConst) : List Event :=
  s.m_members.samplePtr.destroy

/-- Modelled from the spec: move construction `Sample(Sample&&)`
(sample.hpp line 91; definition not among the available sources).
"Transfers handle + producer reference; source becomes INVALID."
Returns (source afterwards, destination). -/
def Sample.moveConstructFrom (s : Sample) : Sample × Sample :=
  (⟨⟨emptyHandle, s.m_members.publisherRef⟩⟩,
   ⟨⟨s.m_members.samplePtr, s.m_members.publisherRef⟩⟩)

/-- Modelled from the spec: move assignment `operator=(Sample&&)`
(sample.hpp line 90; definition not among the available sources). The
destination's previous handle is first disposed of per its own state,
then the source's handle and producer reference are adopted; the source
becomes INVALID. Returns (destination afterwards, source afterwards,
disposal events of the destination's previous handle). -/
def Sample.moveAssign (dst src : Sample) : Sample × Sample × List Event :=
  (⟨⟨src.m_members.samplePtr, src.m_members.publisherRef⟩⟩,
   ⟨⟨emptyHandle, src.m_members.publisherRef⟩⟩,
   dst.m_members.samplePtr.destroy)

/-- Move construction of the read-only variant. -/
def SampleConst.moveConstructFrom (s : SampleConst) : SampleConst × SampleConst :=
  (⟨⟨emptyHandle⟩⟩, ⟨⟨s.m_members.samplePtr⟩⟩)

/-- Move assignment of the read-only variant. -/
def SampleConst.moveAssign (dst src : SampleConst) :
    SampleConst × SampleConst × List Event :=
  (⟨⟨src.m_members.samplePtr⟩⟩, ⟨⟨emptyHandle⟩⟩,
   dst.m_members.samplePtr.destroy)

/-- The member functions of `Sample<T>` declared in sample.hpp. -/
inductive MemberFn where
  | ctorWithPublisher
  | ctorHandleOnly
  | ctorNullptr
  | copyCtor
  | copyAssign
  | moveCtor
  | moveAssignFn
  | mutArrow
  | constArrow
  | mutStar
  | constStar
  | opBool
  | mutGet
  | constGet
  | mutGetHeader
  | constGetHeader
  | publishFn
  | releaseFn
deriving DecidableEq, Repr

/-- Which member functions overload resolution can use for `Sample<T>`,
translated from the `std::enable_if_t` constraints and the deleted
declarations of sample.hpp; `isConstT` says whether the payload type `T`
is const (read-only). Lines 78, 84, 93-94, 102, 116, 136, 150, 164 and
172 of sample.hpp carry the constraints. -/
def availableFor (isConstT : Bool) : MemberFn → Bool
  | .ctorWithPublisher => !isConstT
  | .ctorHandleOnly => isConstT
  | .ctorNullptr => true
  | .copyCtor => false
  | .copyAssign => false
  | .moveCtor => true
  | .moveAssignFn => true
  | .mutArrow => !isConstT
  | .constArrow => true
  | .mutStar => !isConstT
  | .constStar => true
  | .opBool => true
  | .mutGet => !isConstT
  | .constGet => true
  | .mutGetHeader => !isConstT
  | .constGetHeader => true
  | .publishFn => !isConstT
  | .releaseFn => !isConstT

/-! ## A whole-program model of sample lifetimes

To state the exactly-once disposal guarantee over every execution path, a
small operational model runs any sequence of lifecycle operations over a
set of writable sample slots, accumulating the disposal events. Loans
hand out pairwise distinct chunks. -/

/-- The `n`-th chunk handed out by the pool: distinct header and payload
addresses, injective in `n`. -/
def freshChunk (n : Nat) : Chunk := ⟨2 * n, 2 * n + 1⟩

/-- Lifecycle operations on a set of writable sample slots. A slot that
has been destructed holds `none`. -/
inductive Op where
  | loan
  | publishAt (i : Nat)
  | releaseAt (i : Nat)
  | destroyAt (i : Nat)
  | moveCtorFrom (src : Nat)
  | moveAssignAt (dst src : Nat)
deriving DecidableEq, Repr

/-- The system state: the sample slots, the log of disposal events so
far, and how many chunks the pool has loaned out. -/
structure Sys where
  slots : List (Option Sample)
  log : List Event
  loaned : Nat
deriving DecidableEq, Repr

def initSys : Sys := ⟨[], [], 0⟩

/-- One lifecycle operation. `none` signals a contract violation
(operating on a destructed slot, publish/release while INVALID, or
self-move-assignment, which the contract does not cover). -/
def step (sys : Sys) : Op → Option Sys
  | .loan =>
      some ⟨sys.slots ++ [some (mkSample (freshChunk sys.loaned) 0)],
            sys.log, sys.loaned + 1⟩
  | .publishAt i =>
      match sys.slots[i]? with
      | some (some s) =>
          match s.publish with
          | some (s', evs) =>
              some ⟨sys.slots.set i (some s'), sys.log ++ evs, sys.loaned⟩
          | none => none
      | _ => none
  | .releaseAt i =>
      match sys.slots[i]? with
      | some (some s) =>
          match s.release with
          | some (s', evs) =>
              some ⟨sys.slots.set i (some s'), sys.log ++ evs, sys.loaned⟩
          | none => none
      | _ => none
  | .destroyAt i =>
      match sys.slots[i]? with
      | some (some s) =>
          some ⟨sys.slots.set i none, sys.log ++ s.destroy, sys.loaned⟩
      | _ => none
  | .moveCtorFrom src =>
      match sys.slots[src]? with
      | some (some s) =>
          some ⟨(sys.slots.set src (some (Sample.moveConstructFrom s).1))
                  ++ [some (Sample.moveConstructFrom s).2],
                sys.log, sys.loaned⟩
      | _ => none
  | .moveAssignAt dst src =>
      if dst = src then none
      else
        match sys.slots[dst]?, sys.slots[src]? with
        | some (some d), some (some s) =>
            some ⟨((sys.slots.set dst (some (Sample.moveAssign d s).1)).set
                     src (some (Sample.moveAssign d s).2.1)),
                  sys.log ++ (Sample.moveAssign d s).2.2, sys.loaned⟩
        | _, _ => none

/-- Run a whole sequence of lifecycle operations. -/
def run (sys : Sys) : List Op → Option Sys
  | [] => some sys
  | op :: ops =>
      match step sys op with
      | some sys' => run sys' ops
      | none => none

/-- How many disposal events of the log refer to chunk `c`. -/
def countDisposed (c : Chunk) (log : List Event) : Nat :=
  log.countP (fun e => e.chunkOf = c)

/-- Whether a slot currently owns chunk `c`. -/
def slotOwns (c : Chunk) : Option Sample → Bool
  | some s => s.m_members.samplePtr.chunk = some c
  | none => false

/-- How many sample slots currently own chunk `c`. -/
def countOwners (c : Chunk) (slots : List (Option Sample)) : Nat :=
  slots.countP (slotOwns c)

/-- A slot is armed when any chunk it holds came with the real pool
release action (never the no-op placeholder). -/
def armedSlot : Option Sample → Bool
  | some s =>
      s.m_members.samplePtr.chunk.isNone
        || s.m_members.samplePtr.action = RelAction.toPool
  | none => true

/-- A slot is dead when it was destructed or its sample is INVALID: its
lifetime holds no further disposal. -/
def deadSlot : Option Sample → Bool
  | some s => !s.operatorBool
  | none => true

/-- The conservation invariant: every chunk the pool has loaned has
(disposals so far) + (current owners) = 1, chunks not yet loaned have
neither, and every held handle is armed with the pool release action. -/
def Sys.Inv (sys : Sys) : Prop :=
  (∀ o ∈ sys.slots, armedSlot o = true)
    ∧ (∀ k, k < sys.loaned →
        countDisposed (freshChunk k) sys.log
          + countOwners (freshChunk k) sys.slots = 1)
    ∧ (∀ m, sys.loaned ≤ m →
        countDisposed (freshChunk m) sys.log = 0
          ∧ countOwners (freshChunk m) sys.slots = 0)

/-- The read access operations of the read-only Sample (sample.hpp
lines 109, 123, 143, 157). -/
inductive ReadAccess where
  | arrow
  | star
  | getFn
  | headerFn
deriving DecidableEq, Repr

/-- Dispatch a read access operation on a read-only Sample; all four are
`const noexcept` member functions in sample.hpp. -/
def SampleConst.readAt (s : SampleConst) : ReadAccess → Option Nat
  | .arrow => s.operatorArrow
  | .star => s.operatorStar
  | .getFn => s.get
  | .headerFn => s.getHeader

/-! ## Counting helpers -/

theorem mem_of_getElemOpt {α : Type} {l : List α} {i : Nat} {a : α}
    (h : l[i]? = some a) : a ∈ l := by
  obtain ⟨hlt, rfl⟩ := List.getElem?_eq_some.mp h
  exact List.getElem_mem hlt

theorem countP_set_add {α : Type} (p : α → Bool) (l : List α) (i : Nat)
    (x a : α) (h : l[i]? = some a) :
    (l.set i x).countP p + (if p a then 1 else 0)
      = l.countP p + (if p x then 1 else 0) := by
  induction l generalizing i with
  | nil => simp at h
  | cons b t ih =>
    cases i with
    | zero =>
        simp only [List.getElem?_cons_zero, Option.some.injEq] at h
        subst h
        simp only [List.set, List.countP_cons]
        omega
    | succ n =>
        simp only [List.getElem?_cons_succ] at h
        simp only [List.set, List.countP_cons]
        have := ih n h
        omega

theorem freshChunk_inj {m n : Nat} (h : freshChunk m = freshChunk n) :
    m = n := by
  simp only [freshChunk, Chunk.mk.injEq] at h
  omega

theorem countDisposed_append (c : Chunk) (l₁ l₂ : List Event) :
    countDisposed c (l₁ ++ l₂) = countDisposed c l₁ + countDisposed c l₂ := by
  simp [countDisposed, List.countP_append]

theorem countOwners_append (c : Chunk) (l₁ l₂ : List (Option Sample)) :
    countOwners c (l₁ ++ l₂) = countOwners c l₁ + countOwners c l₂ := by
  simp [countOwners, List.countP_append]

theorem countOwners_set_add (c : Chunk) (l : List (Option Sample)) (i : Nat)
    (x a : Option Sample) (h : l[i]? = some a) :
    countOwners c (l.set i x) + (if slotOwns c a then 1 else 0)
      = countOwners c l + (if slotOwns c x then 1 else 0) :=
  countP_set_add (slotOwns c) l i x a h

theorem slotOwns_false_of_countOwners_zero {c : Chunk}
    {l : List (Option Sample)} (h : countOwners c l = 0) {o : Option Sample}
    (ho : o ∈ l) : slotOwns c o = false := by
  have := List.countP_eq_zero.mp h o ho
  simpa using this

/-- Destroying an armed sample disposes exactly the chunk it owns. -/
theorem countDisposed_destroy (c : Chunk) (s : Sample)
    (h : armedSlot (some s) = true) :
    countDisposed c s.destroy = if slotOwns c (some s) then 1 else 0 := by
  rcases hc : s.m_members.samplePtr.chunk with _ | cd
  · simp [Sample.destroy, ChunkHandle.destroy, hc, countDisposed, slotOwns]
  · have hact : s.m_members.samplePtr.action = RelAction.toPool := by
      simp [armedSlot, hc] at h
      exact h
    simp only [Sample.destroy, ChunkHandle.destroy, hc, hact]
    by_cases hce : cd = c
    · subst hce
      simp [countDisposed, Event.chunkOf, slotOwns, hc]
    · simp [countDisposed, Event.chunkOf, slotOwns, hc, hce, Ne.symm hce]

/-- An armed sample's own disposal count equals its ownership count, also
when INVALID (both are then zero). -/
theorem slotOwns_emptyHandle (c : Chunk) (pub : Nat) :
    slotOwns c (some ⟨⟨emptyHandle, pub⟩⟩) = false := by
  simp [slotOwns, emptyHandle]

theorem countOwners_singleton (c : Chunk) (o : Option Sample) :
    countOwners c [o] = if slotOwns c o then 1 else 0 := by
  simp [countOwners, List.countP_cons]

theorem slotOwns_none (c : Chunk) : slotOwns c none = false := rfl

theorem slotOwns_rewrap (c : Chunk) (s : Sample) (pub : Nat) :
    slotOwns c (some ⟨⟨s.m_members.samplePtr, pub⟩⟩) = slotOwns c (some s) :=
  rfl

theorem countDisposed_publish_single {s : Sample} {c : Chunk}
    (hc : s.m_members.samplePtr.chunk = some c) (c' : Chunk) :
    countDisposed c' [Event.publishEv c]
      = if slotOwns c' (some s) then 1 else 0 := by
  simp [countDisposed, Event.chunkOf, slotOwns, hc, List.countP_cons]

theorem countDisposed_poolRelease_single {s : Sample} {c : Chunk}
    (hc : s.m_members.samplePtr.chunk = some c) (c' : Chunk) :
    countDisposed c' [Event.poolReleaseEv c]
      = if slotOwns c' (some s) then 1 else 0 := by
  simp [countDisposed, Event.chunkOf, slotOwns, hc, List.countP_cons]

/-- Every lifecycle operation preserves the conservation invariant. -/
theorem step_inv {sys sys' : Sys} {op : Op} (hinv : sys.Inv)
    (hstep : step sys op = some sys') : sys'.Inv := by
  obtain ⟨hA, hB, hC⟩ := hinv
  cases op with
  | loan =>
      simp only [step, Option.some.injEq] at hstep
      subst hstep
      simp only [Sys.Inv]
      refine ⟨?_, ?_, ?_⟩
      · intro o ho
        rcases List.mem_append.mp ho with h | h
        · exact hA o h
        · simp only [List.mem_singleton] at h
          subst h
          simp [armedSlot, mkSample, loanedHandle]
      · intro k hk
        simp only [countOwners_append, countOwners_singleton]
        by_cases hkl : k < sys.loaned
        · have hB' := hB k hkl
          have hown : slotOwns (freshChunk k)
              (some (mkSample (freshChunk sys.loaned) 0)) = false := by
            simp only [slotOwns, mkSample, loanedHandle,
              decide_eq_false_iff_not, Option.some.injEq]
            intro heq
            exact absurd (freshChunk_inj heq) (by omega)
          simp [hown]
          omega
        · have hkeq : k = sys.loaned := by omega
          subst hkeq
          have hC' := hC sys.loaned (le_refl _)
          have hown : slotOwns (freshChunk sys.loaned)
              (some (mkSample (freshChunk sys.loaned) 0)) = true := by
            simp [slotOwns, mkSample, loanedHandle]
          simp [hown]
          omega
      · intro m hm
        have hC' := hC m (by omega)
        simp only [countOwners_append, countOwners_singleton]
        have hown : slotOwns (freshChunk m)
            (some (mkSample (freshChunk sys.loaned) 0)) = false := by
          simp only [slotOwns, mkSample, loanedHandle,
            decide_eq_false_iff_not, Option.some.injEq]
          intro heq
          exact absurd (freshChunk_inj heq) (by omega)
        simp [hown]
        omega
  | publishAt i =>
      simp only [step] at hstep
      rcases hi : sys.slots[i]? with _ | o
      · rw [hi] at hstep; simp at hstep
      · rcases o with _ | s
        · rw [hi] at hstep; simp at hstep
        · rw [hi] at hstep
          rcases hc : s.m_members.samplePtr.chunk with _ | c
          · simp [Sample.publish, hc] at hstep
          · simp only [Sample.publish, hc, Option.some.injEq] at hstep
            subst hstep
            simp only [Sys.Inv]
            have hmem : some s ∈ sys.slots := mem_of_getElemOpt hi
            refine ⟨?_, ?_, ?_⟩
            · intro o ho
              rcases List.mem_or_eq_of_mem_set ho with h | h
              · exact hA o h
              · subst h
                simp [armedSlot, emptyHandle]
            · intro k hk
              have hB' := hB k hk
              have hset := countOwners_set_add (freshChunk k) sys.slots i
                (some ⟨⟨emptyHandle, s.m_members.publisherRef⟩⟩) (some s) hi
              rw [slotOwns_emptyHandle] at hset
              have hD := countDisposed_append (freshChunk k) sys.log
                [Event.publishEv c]
              rw [countDisposed_publish_single hc] at hD
              cases howns : slotOwns (freshChunk k) (some s) <;>
                simp [howns] at hset hD <;> omega
            · intro m hm
              obtain ⟨hD0, hO0⟩ := hC m hm
              have howns := slotOwns_false_of_countOwners_zero hO0 hmem
              have hset := countOwners_set_add (freshChunk m) sys.slots i
                (some ⟨⟨emptyHandle, s.m_members.publisherRef⟩⟩) (some s) hi
              rw [slotOwns_emptyHandle] at hset
              have hD := countDisposed_append (freshChunk m) sys.log
                [Event.publishEv c]
              rw [countDisposed_publish_single hc] at hD
              simp [howns] at hset hD
              constructor <;> omega
  | releaseAt i =>
      simp only [step] at hstep
      rcases hi : sys.slots[i]? with _ | o
      · rw [hi] at hstep; simp at hstep
      · rcases o with _ | s
        · rw [hi] at hstep; simp at hstep
        · rw [hi] at hstep
          rcases hc : s.m_members.samplePtr.chunk with _ | c
          · simp [Sample.release, hc] at hstep
          · simp only [Sample.release, hc, Option.some.injEq] at hstep
            subst hstep
            simp only [Sys.Inv]
            have hmem : some s ∈ sys.slots := mem_of_getElemOpt hi
            refine ⟨?_, ?_, ?_⟩
            · intro o ho
              rcases List.mem_or_eq_of_mem_set ho with h | h
              · exact hA o h
              · subst h
                simp [armedSlot, emptyHandle]
            · intro k hk
              have hB' := hB k hk
              have hset := countOwners_set_add (freshChunk k) sys.slots i
                (some ⟨⟨emptyHandle, s.m_members.publisherRef⟩⟩) (some s) hi
              rw [slotOwns_emptyHandle] at hset
              have hD := countDisposed_append (freshChunk k) sys.log
                [Event.poolReleaseEv c]
              rw [countDisposed_poolRelease_single hc] at hD
              cases howns : slotOwns (freshChunk k) (some s) <;>
                simp [howns] at hset hD <;> omega
            · intro m hm
              obtain ⟨hD0, hO0⟩ := hC m hm
              have howns := slotOwns_false_of_countOwners_zero hO0 hmem
              have hset := countOwners_set_add (freshChunk m) sys.slots i
                (some ⟨⟨emptyHandle, s.m_members.publisherRef⟩⟩) (some s) hi
              rw [slotOwns_emptyHandle] at hset
              have hD := countDisposed_append (freshChunk m) sys.log
                [Event.poolReleaseEv c]
              rw [countDisposed_poolRelease_single hc] at hD
              simp [howns] at hset hD
              constructor <;> omega
  | destroyAt i =>
      simp only [step] at hstep
      rcases hi : sys.slots[i]? with _ | o
      · rw [hi] at hstep; simp at hstep
      · rcases o with _ | s
        · rw [hi] at hstep; simp at hstep
        · rw [hi] at hstep
          simp only [Option.some.injEq] at hstep
          subst hstep
          simp only [Sys.Inv]
          have hmem : some s ∈ sys.slots := mem_of_getElemOpt hi
          have harm := hA (some s) hmem
          refine ⟨?_, ?_, ?_⟩
          · intro o ho
            rcases List.mem_or_eq_of_mem_set ho with h | h
            · exact hA o h
            · subst h
              simp [armedSlot]
          · intro k hk
            have hB' := hB k hk
            have hset := countOwners_set_add (freshChunk k) sys.slots i
              none (some s) hi
            have hD := countDisposed_append (freshChunk k) sys.log s.destroy
            rw [countDisposed_destroy (freshChunk k) s harm] at hD
            rw [slotOwns_none] at hset
            cases howns : slotOwns (freshChunk k) (some s) <;>
              simp [howns] at hset hD <;> omega
          · intro m hm
            obtain ⟨hD0, hO0⟩ := hC m hm
            have howns := slotOwns_false_of_countOwners_zero hO0 hmem
            have hset := countOwners_set_add (freshChunk m) sys.slots i
              none (some s) hi
            have hD := countDisposed_append (freshChunk m) sys.log s.destroy
            rw [countDisposed_destroy (freshChunk m) s harm] at hD
            rw [slotOwns_none] at hset
            simp [howns] at hset hD
            constructor <;> omega
  | moveCtorFrom src =>
      simp only [step] at hstep
      rcases hi : sys.slots[src]? with _ | o
      · rw [hi] at hstep; simp at hstep
      · rcases o with _ | s
        · rw [hi] at hstep; simp at hstep
        · rw [hi] at hstep
          simp only [Sample.moveConstructFrom, Option.some.injEq] at hstep
          subst hstep
          simp only [Sys.Inv]
          have hmem : some s ∈ sys.slots := mem_of_getElemOpt hi
          have harm := hA (some s) hmem
          refine ⟨?_, ?_, ?_⟩
          · intro o ho
            rcases List.mem_append.mp ho with h | h
            · rcases List.mem_or_eq_of_mem_set h with h' | h'
              · exact hA o h'
              · subst h'
                simp [armedSlot, emptyHandle]
            · simp only [List.mem_singleton] at h
              subst h
              simp only [armedSlot] at harm ⊢
              exact harm
          · intro k hk
            have hB' := hB k hk
            have hset := countOwners_set_add (freshChunk k) sys.slots src
              (some ⟨⟨emptyHandle, s.m_members.publisherRef⟩⟩) (some s) hi
            rw [slotOwns_emptyHandle] at hset
            simp only [countOwners_append, countOwners_singleton,
              slotOwns_rewrap]
            cases howns : slotOwns (freshChunk k) (some s) <;>
              simp [howns] at hset ⊢ <;> omega
          · intro m hm
            obtain ⟨hD0, hO0⟩ := hC m hm
            have howns := slotOwns_false_of_countOwners_zero hO0 hmem
            have hset := countOwners_set_add (freshChunk m) sys.slots src
              (some ⟨⟨emptyHandle, s.m_members.publisherRef⟩⟩) (some s) hi
            rw [slotOwns_emptyHandle] at hset
            simp only [countOwners_append, countOwners_singleton,
              slotOwns_rewrap]
            simp [howns] at hset ⊢
            constructor <;> omega
  | moveAssignAt dst src =>
      simp only [step] at hstep
      by_cases hne : dst = src
      · simp [hne] at hstep
      · simp only [hne, if_false, if_neg hne] at hstep
        rcases hd : sys.slots[dst]? with _ | od
        · rw [hd] at hstep; simp at hstep
        · rcases od with _ | d
          · rw [hd] at hstep; simp at hstep
          · rcases hs : sys.slots[src]? with _ | os
            · rw [hd, hs] at hstep; simp at hstep
            · rcases os with _ | s
              · rw [hd, hs] at hstep; simp at hstep
              · rw [hd, hs] at hstep
                simp only [Sample.moveAssign, Option.some.injEq] at hstep
                subst hstep
                simp only [Sys.Inv]
                have hmemd : some d ∈ sys.slots := mem_of_getElemOpt hd
                have hmems : some s ∈ sys.slots := mem_of_getElemOpt hs
                have harmd := hA (some d) hmemd
                have harms := hA (some s) hmems
                have hsrc1 : (sys.slots.set dst
                    (some ⟨⟨s.m_members.samplePtr,
                      s.m_members.publisherRef⟩⟩))[src]?
                    = some (some s) := by
                  rw [List.getElem?_set_ne hne]
                  exact hs
                refine ⟨?_, ?_, ?_⟩
                · intro o ho
                  rcases List.mem_or_eq_of_mem_set ho with h | h
                  · rcases List.mem_or_eq_of_mem_set h with h' | h'
                    · exact hA o h'
                    · subst h'
                      simp only [armedSlot] at harms ⊢
                      exact harms
                  · subst h
                    simp [armedSlot, emptyHandle]
                · intro k hk
                  have hB' := hB k hk
                  have h1 := countOwners_set_add (freshChunk k) sys.slots dst
                    (some ⟨⟨s.m_members.samplePtr,
                      s.m_members.publisherRef⟩⟩) (some d) hd
                  rw [slotOwns_rewrap] at h1
                  have h2 := countOwners_set_add (freshChunk k)
                    (sys.slots.set dst
                      (some ⟨⟨s.m_members.samplePtr,
                        s.m_members.publisherRef⟩⟩)) src
                    (some ⟨⟨emptyHandle, s.m_members.publisherRef⟩⟩)
                    (some s) hsrc1
                  rw [slotOwns_emptyHandle] at h2
                  have hD := countDisposed_append (freshChunk k) sys.log
                    (ChunkHandle.destroy d.m_members.samplePtr)
                  have hDd : countDisposed (freshChunk k)
                      (ChunkHandle.destroy d.m_members.samplePtr)
                      = if slotOwns (freshChunk k) (some d) then 1 else 0 :=
                    countDisposed_destroy (freshChunk k) d harmd
                  rw [hDd] at hD
                  cases hod : slotOwns (freshChunk k) (some d) <;>
                    cases hos : slotOwns (freshChunk k) (some s) <;>
                      simp [hod, hos] at h1 h2 hD <;>
                        omega
                · intro m hm
                  obtain ⟨hD0, hO0⟩ := hC m hm
                  have hod := slotOwns_false_of_countOwners_zero hO0 hmemd
                  have hos := slotOwns_false_of_countOwners_zero hO0 hmems
                  have h1 := countOwners_set_add (freshChunk m) sys.slots dst
                    (some ⟨⟨s.m_members.samplePtr,
                      s.m_members.publisherRef⟩⟩) (some d) hd
                  rw [slotOwns_rewrap] at h1
                  have h2 := countOwners_set_add (freshChunk m)
                    (sys.slots.set dst
                      (some ⟨⟨s.m_members.samplePtr,
                        s.m_members.publisherRef⟩⟩)) src
                    (some ⟨⟨emptyHandle, s.m_members.publisherRef⟩⟩)
                    (some s) hsrc1
                  rw [slotOwns_emptyHandle] at h2
                  have hD := countDisposed_append (freshChunk m) sys.log
                    (ChunkHandle.destroy d.m_members.samplePtr)
                  have hDd : countDisposed (freshChunk m)
                      (ChunkHandle.destroy d.m_members.samplePtr)
                      = if slotOwns (freshChunk m) (some d) then 1 else 0 :=
                    countDisposed_destroy (freshChunk m) d harmd
                  rw [hDd] at hD
                  simp [hod, hos] at h1 h2 hD
                  constructor <;> omega

theorem initSys_inv : initSys.Inv := by
  refine ⟨?_, ?_, ?_⟩
  · intro o ho
    simp [initSys] at ho
  · intro k hk
    simp [initSys] at hk
  · intro m _
    simp [initSys, countDisposed, countOwners]

theorem run_inv {ops : List Op} {sys sys' : Sys} (h : sys.Inv)
    (hr : run sys ops = some sys') : sys'.Inv := by
  induction ops generalizing sys with
  | nil =>
      simp only [run, Option.some.injEq] at hr
      exact hr ▸ h
  | cons op ops ih =>
      simp only [run] at hr
      rcases hs : step sys op with _ | sys1
      · rw [hs] at hr
        simp at hr
      · rw [hs] at hr
        exact ih (step_inv h hs) hr

/-- A dead slot (destructed or INVALID) owns no chunk. -/
theorem slotOwns_false_of_dead {o : Option Sample}
    (h : deadSlot o = true) (c : Chunk) : slotOwns c o = false := by
  cases o with
  | none => rfl
  | some s =>
      rcases hc : s.m_members.samplePtr.chunk with _ | c'
      · simp [slotOwns, hc]
      · simp [deadSlot, Sample.operatorBool, hc] at h

/-- An INVALID writable sample's handle holds no chunk. -/
theorem chunk_none_of_invalid {s : Sample}
    (h : s.operatorBool = false) : s.m_members.samplePtr.chunk = none := by
  rcases hc : s.m_members.samplePtr.chunk with _ | c
  · rfl
  · simp [Sample.operatorBool, hc] at h

/-- An INVALID read-only sample's handle holds no chunk. -/
theorem chunk_none_of_invalidConst {s : SampleConst}
    (h : s.operatorBool = false) : s.m_members.samplePtr.chunk = none := by
  rcases hc : s.m_members.samplePtr.chunk with _ | c
  · rfl
  · simp [SampleConst.operatorBool, hc] at h

/-! ## Claims -/

/-- C1: every writable Sample still VALID when its destructor runs performs
an implicit release — its chunk is returned to the pool exactly once and
the producer's publish capability is never invoked on that path — and over
N such Samples exactly N pool-release events and zero publish events
occur. -/
theorem destructionImplicitRelease_C1 (cs : List (Chunk × Nat)) :
    (∀ c pub, (mkSample c pub).destroy = [Event.poolReleaseEv c])
      ∧ ((cs.map (fun p => mkSample p.1 p.2)).map Sample.destroy).flatten.countP
          Event.isPublish = 0
      ∧ ((cs.map (fun p => mkSample p.1 p.2)).map Sample.destroy).flatten.countP
          Event.isPoolRelease = cs.length := by
  refine ⟨fun c pub => rfl, ?_, ?_⟩
  · induction cs with
    | nil => simp
    | cons p t ih =>
        simp only [List.map_cons, List.flatten_cons, List.countP_append, ih]
        simp [mkSample, Sample.destroy, loanedHandle, ChunkHandle.destroy,
          List.countP_cons, Event.isPublish]
  · induction cs with
    | nil => simp
    | cons p t ih =>
        simp only [List.map_cons, List.flatten_cons, List.countP_append,
          List.length_cons, ih]
        simp [mkSample, Sample.destroy, loanedHandle, ChunkHandle.destroy,
          List.countP_cons, Event.isPoolRelease]
        omega

/-- C2: over any lifecycle execution (loans, publishes, releases,
move-constructions, move-assignments, destructions) after which every
sample slot has been destructed or left INVALID, each loaned chunk's
disposal ran exactly once — no double release, no leak. In particular
move-assigning into a VALID destination first disposes the destination's
existing chunk before adopting the source's handle. -/
theorem exactlyOnceDisposal_C2 (ops : List Op) (sys' : Sys)
    (hrun : run initSys ops = some sys')
    (hdead : ∀ o ∈ sys'.slots, deadSlot o = true) :
    (∀ k, k < sys'.loaned → countDisposed (freshChunk k) sys'.log = 1)
      ∧ (∀ (d s : Sample) (cd : Chunk),
          d.m_members.samplePtr = ⟨some cd, RelAction.toPool⟩ →
          Sample.moveAssign d s
            = (⟨⟨s.m_members.samplePtr, s.m_members.publisherRef⟩⟩,
               ⟨⟨emptyHandle, s.m_members.publisherRef⟩⟩,
               [Event.poolReleaseEv cd])) := by
  obtain ⟨hA, hB, hC⟩ := run_inv initSys_inv hrun
  constructor
  · intro k hk
    have hB' := hB k hk
    have hO : countOwners (freshChunk k) sys'.slots = 0 := by
      refine List.countP_eq_zero.mpr ?_
      intro o ho
      simp [slotOwns_false_of_dead (hdead o ho) (freshChunk k)]
    omega
  · intro d s cd hd
    simp [Sample.moveAssign, hd, ChunkHandle.destroy]

/-- Witness for C2 on a concrete five-operation execution: two loans, one
move-assignment of the second sample into the first (disposing the first
chunk), then both destructors. -/
theorem exactlyOnceDisposal_C2_witness :
    (∀ k, k < (2 : Nat) →
        countDisposed (freshChunk k)
          [Event.poolReleaseEv (freshChunk 0),
           Event.poolReleaseEv (freshChunk 1)] = 1)
      ∧ (∀ (d s : Sample) (cd : Chunk),
          d.m_members.samplePtr = ⟨some cd, RelAction.toPool⟩ →
          Sample.moveAssign d s
            = (⟨⟨s.m_members.samplePtr, s.m_members.publisherRef⟩⟩,
               ⟨⟨emptyHandle, s.m_members.publisherRef⟩⟩,
               [Event.poolReleaseEv cd])) :=
  exactlyOnceDisposal_C2
    [Op.loan, Op.loan, Op.moveAssignAt 0 1, Op.destroyAt 0, Op.destroyAt 1]
    ⟨[none, none],
     [Event.poolReleaseEv (freshChunk 0), Event.poolReleaseEv (freshChunk 1)],
     2⟩
    (by rfl) (by decide)

/-- C3: publish() on a VALID writable Sample leaves the instance INVALID,
invokes the producer's publish capability exactly once with the chunk the
instance previously owned, and never invokes the pool's release capability
on that path. -/
theorem publishContract_C3 (s : Sample) (c : Chunk)
    (h : s.m_members.samplePtr.chunk = some c) :
    ∃ s', s.publish = some (s', [Event.publishEv c])
      ∧ s'.operatorBool = false
      ∧ [Event.publishEv c].countP Event.isPublish = 1
      ∧ [Event.publishEv c].countP Event.isPoolRelease = 0 := by
  refine ⟨⟨⟨emptyHandle, s.m_members.publisherRef⟩⟩, ?_, ?_, rfl, rfl⟩
  · simp [Sample.publish, h]
  · simp [Sample.operatorBool, emptyHandle]

/-- Witness for C3 at a concrete loaned sample. -/
theorem publishContract_C3_witness :
    ∃ s', (mkSample ⟨4, 5⟩ 7).publish = some (s', [Event.publishEv ⟨4, 5⟩])
      ∧ s'.operatorBool = false
      ∧ [Event.publishEv (⟨4, 5⟩ : Chunk)].countP Event.isPublish = 1
      ∧ [Event.publishEv (⟨4, 5⟩ : Chunk)].countP Event.isPoolRelease = 0 :=
  publishContract_C3 (mkSample ⟨4, 5⟩ 7) ⟨4, 5⟩ rfl

/-- C4: release() on a VALID writable Sample leaves the instance INVALID,
invokes the pool's release capability exactly once with the chunk the
instance previously owned (never making it visible to subscribers), and
never invokes the producer's publish capability. -/
theorem releaseContract_C4 (s : Sample) (c : Chunk)
    (h : s.m_members.samplePtr.chunk = some c) :
    ∃ s', s.release = some (s', [Event.poolReleaseEv c])
      ∧ s'.operatorBool = false
      ∧ [Event.poolReleaseEv c].countP Event.isPoolRelease = 1
      ∧ [Event.poolReleaseEv c].countP Event.isPublish = 0 := by
  refine ⟨⟨⟨emptyHandle, s.m_members.publisherRef⟩⟩, ?_, ?_, rfl, rfl⟩
  · simp [Sample.release, h]
  · simp [Sample.operatorBool, emptyHandle]

/-- Witness for C4 at a concrete loaned sample. -/
theorem releaseContract_C4_witness :
    ∃ s', (mkSample ⟨8, 9⟩ 3).release = some (s', [Event.poolReleaseEv ⟨8, 9⟩])
      ∧ s'.operatorBool = false
      ∧ [Event.poolReleaseEv (⟨8, 9⟩ : Chunk)].countP Event.isPoolRelease = 1
      ∧ [Event.poolReleaseEv (⟨8, 9⟩ : Chunk)].countP Event.isPublish = 0 :=
  releaseContract_C4 (mkSample ⟨8, 9⟩ 3) ⟨8, 9⟩ rfl

/-- C5: moving a VALID Sample (either variant, by construction or
assignment) leaves the source INVALID and the destination VALID with the
source's pre-move payload and header addresses — the handle transfers,
never copies — and the copy constructor and copy assignment are deleted. -/
theorem moveTransfersHandle_C5 (s dst : Sample) (sc dstc : SampleConst)
    (c : Chunk) (cc : Chunk)
    (h : s.m_members.samplePtr.chunk = some c)
    (hc : sc.m_members.samplePtr.chunk = some cc) :
    ((Sample.moveConstructFrom s).1.operatorBool = false
      ∧ (Sample.moveConstructFrom s).2.operatorBool = true
      ∧ (Sample.moveConstructFrom s).2.get = s.get
      ∧ (Sample.moveConstructFrom s).2.getHeader = s.getHeader)
    ∧ ((Sample.moveAssign dst s).2.1.operatorBool = false
      ∧ (Sample.moveAssign dst s).1.operatorBool = true
      ∧ (Sample.moveAssign dst s).1.get = s.get
      ∧ (Sample.moveAssign dst s).1.getHeader = s.getHeader)
    ∧ ((SampleConst.moveConstructFrom sc).1.operatorBool = false
      ∧ (SampleConst.moveConstructFrom sc).2.operatorBool = true
      ∧ (SampleConst.moveConstructFrom sc).2.get = sc.get
      ∧ (SampleConst.moveConstructFrom sc).2.getHeader = sc.getHeader)
    ∧ ((SampleConst.moveAssign dstc sc).2.1.operatorBool = false
      ∧ (SampleConst.moveAssign dstc sc).1.operatorBool = true
      ∧ (SampleConst.moveAssign dstc sc).1.get = sc.get
      ∧ (SampleConst.moveAssign dstc sc).1.getHeader = sc.getHeader)
    ∧ (∀ b, availableFor b MemberFn.copyCtor = false
        ∧ availableFor b MemberFn.copyAssign = false) := by
  refine ⟨⟨?_, ?_, rfl, rfl⟩, ⟨?_, ?_, rfl, rfl⟩, ⟨?_, ?_, rfl, rfl⟩,
    ⟨?_, ?_, rfl, rfl⟩, fun b => ⟨rfl, rfl⟩⟩
  · simp [Sample.moveConstructFrom, Sample.operatorBool, emptyHandle]
  · simp [Sample.moveConstructFrom, Sample.operatorBool, h]
  · simp [Sample.moveAssign, Sample.operatorBool, emptyHandle]
  · simp [Sample.moveAssign, Sample.operatorBool, h]
  · simp [SampleConst.moveConstructFrom, SampleConst.operatorBool, emptyHandle]
  · simp [SampleConst.moveConstructFrom, SampleConst.operatorBool, hc]
  · simp [SampleConst.moveAssign, SampleConst.operatorBool, emptyHandle]
  · simp [SampleConst.moveAssign, SampleConst.operatorBool, hc]

/-- Witness for C5 at concrete valid samples of both variants. -/
theorem moveTransfersHandle_C5_witness :
    (((Sample.moveConstructFrom (mkSample ⟨0, 1⟩ 2)).1.operatorBool = false
      ∧ (Sample.moveConstructFrom (mkSample ⟨0, 1⟩ 2)).2.operatorBool = true
      ∧ (Sample.moveConstructFrom (mkSample ⟨0, 1⟩ 2)).2.get
          = (mkSample ⟨0, 1⟩ 2).get
      ∧ (Sample.moveConstructFrom (mkSample ⟨0, 1⟩ 2)).2.getHeader
          = (mkSample ⟨0, 1⟩ 2).getHeader)
    ∧ ((Sample.moveAssign (mkNullSample 0) (mkSample ⟨0, 1⟩ 2)).2.1.operatorBool
          = false
      ∧ (Sample.moveAssign (mkNullSample 0) (mkSample ⟨0, 1⟩ 2)).1.operatorBool
          = true
      ∧ (Sample.moveAssign (mkNullSample 0) (mkSample ⟨0, 1⟩ 2)).1.get
          = (mkSample ⟨0, 1⟩ 2).get
      ∧ (Sample.moveAssign (mkNullSample 0) (mkSample ⟨0, 1⟩ 2)).1.getHeader
          = (mkSample ⟨0, 1⟩ 2).getHeader)
    ∧ ((SampleConst.moveConstructFrom (mkSampleConst ⟨6, 7⟩)).1.operatorBool
          = false
      ∧ (SampleConst.moveConstructFrom (mkSampleConst ⟨6, 7⟩)).2.operatorBool
          = true
      ∧ (SampleConst.moveConstructFrom (mkSampleConst ⟨6, 7⟩)).2.get
          = (mkSampleConst ⟨6, 7⟩).get
      ∧ (SampleConst.moveConstructFrom (mkSampleConst ⟨6, 7⟩)).2.getHeader
          = (mkSampleConst ⟨6, 7⟩).getHeader)
    ∧ ((SampleConst.moveAssign mkNullSampleConst
          (mkSampleConst ⟨6, 7⟩)).2.1.operatorBool = false
      ∧ (SampleConst.moveAssign mkNullSampleConst
          (mkSampleConst ⟨6, 7⟩)).1.operatorBool = true
      ∧ (SampleConst.moveAssign mkNullSampleConst
          (mkSampleConst ⟨6, 7⟩)).1.get = (mkSampleConst ⟨6, 7⟩).get
      ∧ (SampleConst.moveAssign mkNullSampleConst
          (mkSampleConst ⟨6, 7⟩)).1.getHeader = (mkSampleConst ⟨6, 7⟩).getHeader)
    ∧ (∀ b, availableFor b MemberFn.copyCtor = false
        ∧ availableFor b MemberFn.copyAssign = false)) :=
  moveTransfersHandle_C5 (mkSample ⟨0, 1⟩ 2) (mkNullSample 0)
    (mkSampleConst ⟨6, 7⟩) mkNullSampleConst ⟨0, 1⟩ ⟨6, 7⟩ rfl rfl

/-- C6: a Sample constructed from the null sentinel is INVALID, and every
access operation (dereference, member access, get, getHeader, publish,
release) on an INVALID Sample aborts (models as `none`), never yielding a
silently wrong pointer. -/
theorem nullSentinelAborts_C6 (p : Nat) (s : Sample) (sc : SampleConst)
    (hs : s.operatorBool = false) (hsc : sc.operatorBool = false) :
    (mkNullSample p).operatorBool = false
      ∧ mkNullSampleConst.operatorBool = false
      ∧ s.operatorArrow = none ∧ s.operatorStar = none ∧ s.get = none
      ∧ s.getHeader = none ∧ s.publish = none ∧ s.release = none
      ∧ sc.operatorArrow = none ∧ sc.operatorStar = none ∧ sc.get = none
      ∧ sc.getHeader = none := by
  have hn := chunk_none_of_invalid hs
  have hnc := chunk_none_of_invalidConst hsc
  refine ⟨rfl, rfl, ?_, ?_, ?_, ?_, ?_, ?_, ?_, ?_, ?_, ?_⟩ <;>
    simp [Sample.operatorArrow, Sample.operatorStar, Sample.get,
      Sample.getHeader, Sample.publish, Sample.release,
      SampleConst.operatorArrow, SampleConst.operatorStar, SampleConst.get,
      SampleConst.getHeader, hn, hnc]

/-- Witness for C6 at the null-sentinel samples themselves. -/
theorem nullSentinelAborts_C6_witness :
    (mkNullSample 5).operatorBool = false
      ∧ mkNullSampleConst.operatorBool = false
      ∧ (mkNullSample 9).operatorArrow = none
      ∧ (mkNullSample 9).operatorStar = none
      ∧ (mkNullSample 9).get = none
      ∧ (mkNullSample 9).getHeader = none
      ∧ (mkNullSample 9).publish = none
      ∧ (mkNullSample 9).release = none
      ∧ mkNullSampleConst.operatorArrow = none
      ∧ mkNullSampleConst.operatorStar = none
      ∧ mkNullSampleConst.get = none
      ∧ mkNullSampleConst.getHeader = none :=
  nullSentinelAborts_C6 5 (mkNullSample 9) mkNullSampleConst rfl rfl

/-- C7: for both Sample variants, the boolean conversion is true exactly
when the instance currently owns a chunk handle. -/
theorem validityIffOwnership_C7 (s : Sample) (sc : SampleConst) :
    (s.operatorBool = true ↔ s.OwnsChunk)
      ∧ (sc.operatorBool = true ↔ sc.OwnsChunk) := by
  constructor <;>
    simp [Sample.operatorBool, SampleConst.operatorBool, Sample.OwnsChunk,
      SampleConst.OwnsChunk, Option.isSome_iff_exists]

/-- C8: the handle-plus-producer constructor, write access, publish and
release are available exactly for non-const payloads; the handle-only
constructor exactly for const payloads; and the const private data holds
nothing beyond its chunk handle, so a read-only Sample can never publish
or release. -/
theorem availabilityConstraints_C8 :
    availableFor false MemberFn.ctorWithPublisher = true
      ∧ availableFor true MemberFn.ctorWithPublisher = false
      ∧ availableFor true MemberFn.ctorHandleOnly = true
      ∧ availableFor false MemberFn.ctorHandleOnly = false
      ∧ (∀ b, availableFor b MemberFn.mutArrow = !b
          ∧ availableFor b MemberFn.mutStar = !b
          ∧ availableFor b MemberFn.mutGet = !b
          ∧ availableFor b MemberFn.mutGetHeader = !b
          ∧ availableFor b MemberFn.publishFn = !b
          ∧ availableFor b MemberFn.releaseFn = !b)
      ∧ availableFor true MemberFn.publishFn = false
      ∧ availableFor true MemberFn.releaseFn = false
      ∧ (∀ d : SamplePrivateDataConst, d = ⟨d.samplePtr⟩) :=
  ⟨rfl, rfl, rfl, rfl, fun _ => ⟨rfl, rfl, rfl, rfl, rfl, rfl⟩, rfl, rfl,
   fun _ => rfl⟩

/-- C9: on a VALID read-only Sample, the read access operations return the
(stable) payload and header addresses of the owned chunk; as pure `const`
operations, any number of repeated invocations yields the same answers. -/
theorem readStability_C9 (s : SampleConst) (c : Chunk)
    (h : s.m_members.samplePtr.chunk = some c) :
    s.get = some c.payloadAddr
      ∧ s.getHeader = some c.headerAddr
      ∧ s.operatorArrow = s.get
      ∧ s.operatorStar = s.get
      ∧ ∀ (n : Nat) (op : ReadAccess),
          (List.replicate n op).map s.readAt = List.replicate n (s.readAt op) := by
  refine ⟨?_, ?_, rfl, rfl, fun n op => List.map_replicate⟩
  · simp [SampleConst.get, h]
  · simp [SampleConst.getHeader, h]

/-- Witness for C9 at a concrete valid read-only sample. -/
theorem readStability_C9_witness :
    (mkSampleConst ⟨10, 11⟩).get = some 11
      ∧ (mkSampleConst ⟨10, 11⟩).getHeader = some 10
      ∧ (mkSampleConst ⟨10, 11⟩).operatorArrow = (mkSampleConst ⟨10, 11⟩).get
      ∧ (mkSampleConst ⟨10, 11⟩).operatorStar = (mkSampleConst ⟨10, 11⟩).get
      ∧ ∀ (n : Nat) (op : ReadAccess),
          (List.replicate n op).map (mkSampleConst ⟨10, 11⟩).readAt
            = List.replicate n ((mkSampleConst ⟨10, 11⟩).readAt op) :=
  readStability_C9 (mkSampleConst ⟨10, 11⟩) ⟨10, 11⟩ rfl

/-- C10: the placeholder private-data handle and the handle of every
moved-from (INVALID) Sample carry the no-op release action and no chunk,
so destroying an INVALID Sample invokes neither the pool release nor the
publish capability. -/
theorem noopOnInvalidDestruction_C10 (d src s : Sample)
    (sc dc srcc : SampleConst)
    (hs : s.operatorBool = false) (hsc : sc.operatorBool = false) :
    placeholderHandle.action = RelAction.noop
      ∧ placeholderHandle.chunk = none
      ∧ (Sample.moveConstructFrom d).1.m_members.samplePtr = placeholderHandle
      ∧ (Sample.moveAssign d src).2.1.m_members.samplePtr = placeholderHandle
      ∧ (SampleConst.moveConstructFrom sc).1.m_members.samplePtr
          = placeholderHandle
      ∧ (SampleConst.moveAssign dc srcc).2.1.m_members.samplePtr
          = placeholderHandle
      ∧ s.destroy = []
      ∧ sc.destroy = [] := by
  have hn := chunk_none_of_invalid hs
  have hnc := chunk_none_of_invalidConst hsc
  refine ⟨rfl, rfl, rfl, rfl, rfl, rfl, ?_, ?_⟩
  · simp [Sample.destroy, ChunkHandle.destroy, hn]
  · simp [SampleConst.destroy, ChunkHandle.destroy, hnc]

/-- Witness for C10 at concrete INVALID samples. -/
theorem noopOnInvalidDestruction_C10_witness :
    placeholderHandle.action = RelAction.noop
      ∧ placeholderHandle.chunk = none
      ∧ (Sample.moveConstructFrom (mkSample ⟨0, 1⟩ 0)).1.m_members.samplePtr
          = placeholderHandle
      ∧ (Sample.moveAssign (mkSample ⟨0, 1⟩ 0)
          (mkSample ⟨2, 3⟩ 0)).2.1.m_members.samplePtr = placeholderHandle
      ∧ (SampleConst.moveConstructFrom
          mkNullSampleConst).1.m_members.samplePtr = placeholderHandle
      ∧ (SampleConst.moveAssign (mkSampleConst ⟨4, 5⟩)
          (mkSampleConst ⟨6, 7⟩)).2.1.m_members.samplePtr = placeholderHandle
      ∧ (mkNullSample 1).destroy = []
      ∧ mkNullSampleConst.destroy = [] :=
  noopOnInvalidDestruction_C10 (mkSample ⟨0, 1⟩ 0) (mkSample ⟨2, 3⟩ 0)
    (mkNullSample 1) mkNullSampleConst (mkSampleConst ⟨4, 5⟩)
    (mkSampleConst ⟨6, 7⟩) rfl rfl

end IceoryxSample
